import Mathlib

/-
Shallow embedding of the ROS (regression on order statistics) estimator of
src/wqio/algo/ros.py (function rosSort and class MR).  Machine floats are
modelled by exact rationals; the external transcendental routines np.exp,
np.log and scipy dist.ppf are modelled by an abstract `MathOps` parameter,
so every theorem below is proved for an arbitrary choice of those three
functions.  Pandas DataFrames become lists of records; each derived column
becomes a field of the record produced for the corresponding row.
-/

/-- Observation: one row of the normalized input table (ros.py lines 141-158):
a positive numeric result `res` and a flag `censored` that stands for the
standardized qualifier (`censored = true` encodes qual == 'ND'). -/
structure Obs where
  res : ℚ
  censored : Bool
deriving DecidableEq, Repr, Inhabited

/-- DLEntry: one real row of the detection-limit table `MR.DLs` built by
`MR.cohn` (ros.py lines 189-277): the limit `DL`, the governed interval
`[lower, upper)` (`upper = none` encodes +infinity), and the Cohn counts
A, B, C.  The appended sentinel row (line 268) carries no counts and is
represented separately by the extra final entry of the PE list. -/
structure DLEntry where
  DL : ℚ
  lower : ℚ
  upper : Option ℚ
  A : ℕ
  B : ℕ
  C : ℕ
deriving DecidableEq, Repr, Inhabited

/-- PreRow: a sorted observation together with its `DLIndex` column
(ros.py line 175). -/
structure PreRow where
  res : ℚ
  censored : Bool
  dlIdx : ℕ
deriving DecidableEq, Repr, Inhabited

/-- OutRow: one row of the final `MR.debug` table: the observation, its
DLIndex, the raw rank column `Norm Ranks`, the tie-averaged column
`Avg Ranks`, and the optional columns `plot_pos`, `Zprelim`,
`modeled_data` (only present on the regression path; `none` models an
absent column) plus the always-present `final_data`. -/
structure OutRow where
  res : ℚ
  censored : Bool
  dlIdx : ℕ
  normRank : ℕ
  avgRank : ℚ
  plotPos : Option ℚ
  zprelim : Option ℚ
  modeled : Option ℚ
  final : ℚ
deriving DecidableEq, Repr, Inhabited

/-- MathOps: the external numeric routines used by MR.estimator —
np.exp (line 409), np.log (line 396) and the quantile function
self.dist.ppf (line 392).  They are transcendental, so the embedding
keeps them abstract; theorems quantify over them. -/
structure MathOps where
  expf : ℚ → ℚ
  logf : ℚ → ℚ
  ppf : ℚ → ℚ

/-- MRResult: the outputs of one MR run — the real detection-limit rows
`dls`, the PE column `pe` (one entry per real row plus the sentinel row;
empty when the table is empty), the expanded data table `rows`, and the
fitted (slope, intercept) when a regression was performed. -/
structure MRResult where
  dls : List DLEntry
  pe : List ℚ
  rows : List OutRow
  fit : Option (ℚ × ℚ)

/-- Insertion step of the ascending-by-res sort used to model
pandas sort(columns=rescol) in rosSort (ros.py lines 45-46). -/
def insertByRes (o : Obs) : List Obs → List Obs
  | [] => [o]
  | x :: xs => if o.res < x.res then o :: x :: xs else x :: insertByRes o xs

/-- Ascending sort by `res` (tie order among equal values is unspecified
by the spec and irrelevant downstream). -/
def sortByRes (l : List Obs) : List Obs := l.foldr insertByRes []

/-- rosSort (ros.py lines 21-51): non-detects sorted ascending, then
detects sorted ascending. -/
def rosSort (l : List Obs) : List Obs :=
  sortByRes (l.filter (fun o => o.censored)) ++ sortByRes (l.filter (fun o => !o.censored))

/-- Counter of observations satisfying a decidable predicate; models the
boolean-mask row counts `self.data[mask].shape[0]` used throughout
MR.cohn. -/
def countObs (p : Obs → Prop) [DecidablePred p] : List Obs → ℕ
  | [] => 0
  | o :: rest => (if p o then 1 else 0) + countObs p rest

/-- Comparison against an `upper` bound where `none` is +infinity, as in
`self.data.res < row.upper` with upper possibly np.inf (ros.py line 202). -/
def ltUpper (x : ℚ) : Option ℚ → Bool
  | none => true
  | some u => decide (x < u)

/-- Cohn count A (ros.py lines 194-208): detected observations with
lower <= res < upper. -/
def countA (data : List Obs) (lower : ℚ) (upper : Option ℚ) : ℕ :=
  countObs (fun o => lower ≤ o.res ∧ ltUpper o.res upper = true ∧ o.censored = false) data

/-- Cohn count B (ros.py lines 210-231): non-detects with res <= lower
plus detects with res < lower. -/
def countB (data : List Obs) (lower : ℚ) : ℕ :=
  countObs (fun o => o.res ≤ lower ∧ o.censored = true) data
    + countObs (fun o => o.res < lower ∧ o.censored = false) data

/-- Cohn count C (ros.py lines 233-238): non-detects whose value equals
lower exactly. -/
def countC (data : List Obs) (lower : ℚ) : ℕ :=
  countObs (fun o => o.censored = true ∧ o.res = lower) data

/-- First-occurrence deduplication with an accumulator of already seen
values; `pandasUnique` below models pandas.unique (ros.py line 241). -/
def uniqAux (seen : List ℚ) : List ℚ → List ℚ
  | [] => []
  | x :: xs => if x ∈ seen then uniqAux seen xs else x :: uniqAux (x :: seen) xs

/-- pandas.unique: distinct values in order of first occurrence. -/
def pandasUnique (l : List ℚ) : List ℚ := uniqAux [] l

/-- Minimum of a list of rationals, modelling ndarray/Series .min() on the
nonempty arrays where ros.py calls it (lines 246). -/
def listMin : List ℚ → ℚ
  | [] => 0
  | [x] => x
  | x :: y :: xs => min x (listMin (y :: xs))

/-- MR.cohn (ros.py lines 189-277) restricted to the real rows: the unique
censored values, with the global minimum prepended when it lies below the
smallest censored limit (lines 245-247), each row carrying lower = DL,
upper = next DL (infinity for the last row, lines 253-260) and the A, B, C
counts (lines 263-265).  The appended all-NaN sentinel row (line 268) has
no counts; its PE slot is the extra last entry of the PE lists built
below.  With no censored observations cohn returns the empty table
(lines 273-275). -/
def cohnDLs (sorted : List Obs) : List DLEntry :=
  let censVals := (sorted.filter (fun o => o.censored)).map (fun o => o.res)
  let dls0 := pandasUnique censVals
  if dls0 = [] then []
  else
    let dls1 := if listMin (sorted.map (fun o => o.res)) < listMin dls0
                then listMin (sorted.map (fun o => o.res)) :: dls0 else dls0
    (List.range dls1.length).map (fun i =>
      let low := dls1.getD i 0
      let upp := if i + 1 < dls1.length then some (dls1.getD (i + 1) 0) else none
      { DL := low, lower := low, upper := upp,
        A := countA sorted low upp,
        B := countB sorted low,
        C := countC sorted low })

/-- Helper for dlIndex: walk the DL column left to right keeping the index
of the last value <= res. -/
def dlIndexAux (res : ℚ) : List ℚ → ℕ → ℕ → ℕ
  | [], _, acc => acc
  | v :: rest, i, acc => dlIndexAux res rest (i + 1) (if v ≤ res then i else acc)

/-- _ros_DL_index (ros.py lines 118-130): the greatest index whose DL is
<= res (np.where(DL <= res)[-1]); 0 when the table is empty.  The 0
fallback for a nonempty table with no DL below res mirrors the fact that
the Python code never reaches that case on its inputs (DL[0] is the
global minimum there; Python would raise an IndexError). -/
def dlIndex (dlvals : List ℚ) (res : ℚ) : ℕ := dlIndexAux res dlvals 0 0

/-- Raw rank column `Norm Ranks` (ros.py lines 296-309): rank is 1 at row
0 and whenever DLIndex or the censor flag differs from the previous row,
otherwise the previous rank plus one. -/
def rankAt (pres : List PreRow) : ℕ → ℕ
  | 0 => 1
  | n + 1 =>
    if (pres.getD (n + 1) default).dlIdx ≠ (pres.getD n default).dlIdx
        ∨ (pres.getD (n + 1) default).censored ≠ (pres.getD n default).censored
    then 1
    else rankAt pres n + 1

/-- Indices of the detected rows sharing a (DLIndex, res) pair; the boolean
mask of ros.py lines 315-317. -/
def detectGroupIdxs (pres : List PreRow) (d : ℕ) (v : ℚ) : List ℕ :=
  (List.range pres.length).filter (fun i =>
    decide ((pres.getD i default).censored = false
      ∧ (pres.getD i default).dlIdx = d ∧ (pres.getD i default).res = v))

/-- Tie-averaged column `Avg Ranks` (ros.py lines 313-322): a non-detect
keeps its raw rank; a detect gets the mean of the raw ranks over all
detected rows with the same DLIndex and value. -/
def avgRankAt (pres : List PreRow) (n : ℕ) : ℚ :=
  let r := pres.getD n default
  if r.censored = true then (rankAt pres n : ℚ)
  else
    let idxs := detectGroupIdxs pres r.dlIdx r.res
    (idxs.map (fun i => (rankAt pres i : ℚ))).sum / (idxs.length : ℚ)

/-- Backward PE recursion (ros.py lines 375-379) as a fold from the
sentinel: given the ratios A/(A+B) of the real rows in table order, the
result lists the final PE of every row, real rows first, the sentinel
(which keeps its initialization 0, line 271) last.  The in-place loop
`for j in self.DLs.index[:-1][::-1]` writes PE[j] from the already final
PE[j+1], which is exactly this right fold. -/
def peCompute : List ℚ → List ℚ
  | [] => [0]
  | r :: rest =>
    let tl := peCompute rest
    let h := tl.headD 0
    (h + r * (1 - h)) :: tl

/-- _ros_plotting_pos (ros.py lines 329-339): plotting position of a row
from its governing entry i = DLIndex and successor i+1, computed with the
row's RAW rank (`Norm Ranks`) in both branches. -/
def plotPosAt (dls : List DLEntry) (pe : List ℚ) (r : PreRow) (rank : ℕ) : ℚ :=
  let pe1 := pe.getD r.dlIdx 0
  let pe2 := pe.getD (r.dlIdx + 1) 0
  let e := dls.getD r.dlIdx default
  if r.censored = true then (1 - pe1) * (rank : ℚ) / ((e.C : ℚ) + 1)
  else (1 - pe1) + (pe1 - pe2) * (rank : ℚ) / ((e.A : ℚ) + 1)

/-- scipy.stats.linregress (ros.py line 399) reduced to the fitted pair:
ordinary least squares slope and intercept of y against x. -/
def linregress (pts : List (ℚ × ℚ)) : ℚ × ℚ :=
  let n : ℚ := (pts.length : ℚ)
  let mx := (pts.map (fun p => p.1)).sum / n
  let my := (pts.map (fun p => p.2)).sum / n
  let sxx := (pts.map (fun p => (p.1 - mx) * (p.1 - mx))).sum
  let sxy := (pts.map (fun p => (p.1 - mx) * (p.2 - my))).sum
  (sxy / sxx, my - sxy / sxx * mx)

/-- Row builder shared by the three estimator branches: every branch keeps
the observation, DLIndex and both rank columns, and differs only in the
plot_pos / Zprelim / modeled_data / final_data columns. -/
def mkOutRows (pres : List PreRow) (ppF zF mdF : ℕ → Option ℚ) (finF : ℕ → ℚ) :
    List OutRow :=
  (List.range pres.length).map (fun n =>
    let p := pres.getD n default
    { res := p.res, censored := p.censored, dlIdx := p.dlIdx,
      normRank := rankAt pres n, avgRank := avgRankAt pres n,
      plotPos := ppF n, zprelim := zF n, modeled := mdF n, final := finF n })

/-- N_tot (ros.py line 152): number of input rows, counted before sorting. -/
def nTotOf (data : List Obs) : ℕ := data.length

/-- N_nd (ros.py line 153): number of censored input rows, counted before
sorting. -/
def nNdOf (data : List Obs) : ℕ := countObs (fun o => o.censored = true) data

/-- The sorted table self.data (ros.py line 161). -/
def sortedOf (data : List Obs) : List Obs := rosSort data

/-- The real rows of self.DLs (ros.py line 172). -/
def dlsOf (data : List Obs) : List DLEntry := cohnDLs (rosSort data)

/-- self.data with its DLIndex column (ros.py line 175). -/
def presOf (data : List Obs) : List PreRow :=
  (rosSort data).map (fun o =>
    { res := o.res, censored := o.censored,
      dlIdx := dlIndex ((dlsOf data).map (fun e => e.DL)) o.res })

/-- The final PE column on the regression path (ros.py lines 375-379). -/
def peOf (data : List Obs) : List ℚ :=
  peCompute ((dlsOf data).map (fun e => (e.A : ℚ) / ((e.A : ℚ) + (e.B : ℚ))))

/-- Zprelim of row n on the regression path (ros.py line 392). -/
def zAtOf (ops : MathOps) (data : List Obs) (n : ℕ) : ℚ :=
  ops.ppf (plotPosAt (dlsOf data) (peOf data) ((presOf data).getD n default)
    (rankAt (presOf data) n))

/-- The regression fit (ros.py lines 394-400): OLS of f(res) against
Zprelim over the detected rows, f = log when fitlogs else identity. -/
def fitOf (ops : MathOps) (fitlogs : Bool) (data : List Obs) : ℚ × ℚ :=
  linregress
    (((List.range (presOf data).length).filter
        (fun n => decide (((presOf data).getD n default).censored = false))).map
      (fun n =>
        (zAtOf ops data n,
         if fitlogs then ops.logf ((presOf data).getD n default).res
         else ((presOf data).getD n default).res)))

/-- MR.estimator together with the surrounding __init__ pipeline
(ros.py lines 115-187 and 324-419): the three-way branch on N_nd and the
detect count / censored fraction, returning the detection-limit table,
the PE column (kept at its initialization 0 except on the regression
path), the expanded rows and the fit.  On the regression path the modeled
value of a censored row is np.exp(slope * Zprelim + intercept)
(line 409-411) — note the unconditional exponential. -/
def runMR (ops : MathOps) (fitlogs : Bool) (data : List Obs) : MRResult :=
  if nNdOf data = 0 then
    { dls := dlsOf data, pe := [],
      rows := mkOutRows (presOf data) (fun _ => none) (fun _ => none) (fun _ => none)
        (fun n => ((presOf data).getD n default).res),
      fit := none }
  else if nTotOf data - nNdOf data < 2
      ∨ (nNdOf data : ℚ) / (nTotOf data : ℚ) > 4 / 5 then
    { dls := dlsOf data, pe := List.replicate ((dlsOf data).length + 1) 0,
      rows := mkOutRows (presOf data) (fun _ => none) (fun _ => none) (fun _ => none)
        (fun n =>
          if ((presOf data).getD n default).censored = true
          then 1 / 2 * ((presOf data).getD n default).res
          else ((presOf data).getD n default).res),
      fit := none }
  else
    { dls := dlsOf data, pe := peOf data,
      rows := mkOutRows (presOf data)
        (fun n => some (plotPosAt (dlsOf data) (peOf data)
          ((presOf data).getD n default) (rankAt (presOf data) n)))
        (fun n => some (zAtOf ops data n))
        (fun n =>
          if ((presOf data).getD n default).censored = true
          then some (ops.expf ((fitOf ops fitlogs data).1 * zAtOf ops data n
            + (fitOf ops fitlogs data).2))
          else none)
        (fun n =>
          if ((presOf data).getD n default).censored = true
          then ops.expf ((fitOf ops fitlogs data).1 * zAtOf ops data n
            + (fitOf ops fitlogs data).2)
          else ((presOf data).getD n default).res),
      fit := some (fitOf ops fitlogs data) }

/-- Count of detected observations with value in [lower, upper), written
from the claim wording of C2 (spec section 3) for comparison with the
code-side countA. -/
def specA (data : List Obs) (lower : ℚ) (upper : Option ℚ) : ℕ :=
  countObs (fun o => o.censored = false ∧ lower ≤ o.res ∧ ltUpper o.res upper = true) data

/-- Count of all observations with value strictly below lower, plus
censored observations with value equal to lower, written from the claim
wording of C2 (spec section 3). -/
def specB (data : List Obs) (lower : ℚ) : ℕ :=
  countObs (fun o => o.res < lower) data
    + countObs (fun o => o.censored = true ∧ o.res = lower) data

/-- Count of censored observations whose limit equals lower exactly,
written from the claim wording of C2 (spec section 3). -/
def specC (data : List Obs) (lower : ℚ) : ℕ :=
  countObs (fun o => o.censored = true ∧ o.res = lower) data

/-- Identity instantiation of the external numeric routines, used for the
concrete example runs (any instantiation satisfies the universally
quantified theorems; witnesses pick this one). -/
def opsEx : MathOps := { expf := fun x => x, logf := fun x => x, ppf := fun x => x }

/-- Instantiation whose exponential visibly differs from the identity,
used to exhibit the unconditional np.exp of ros.py line 409. -/
def opsShift : MathOps := { expf := fun x => x + 7, logf := fun x => x, ppf := fun x => x }

/-- Example: one censored value 1 plus detects 2, 2, 3 — regression path
with a detect tie. -/
def dTies : List Obs := [{ res := 1, censored := true }, { res := 2, censored := false },
  { res := 2, censored := false }, { res := 3, censored := false }]

/-- Example: censored 3 with detects 1 and 5 — regression path where the
prepended sub-limit minimum drives PE of entry 0 to exactly 1. -/
def dPeOne : List Obs := [{ res := 3, censored := true }, { res := 1, censored := false },
  { res := 5, censored := false }]

/-- Example: three detects, no censored rows. -/
def dNoCens : List Obs := [{ res := 1, censored := false }, { res := 2, censored := false },
  { res := 3, censored := false }]

/-- Example: one censored row and a single detect — the too-few-detects
fallback path. -/
def dFallback : List Obs := [{ res := 1, censored := true }, { res := 2, censored := false }]

/-- Example: censored 1 with detects 2 and 4 — regression path used to
evaluate the imputation formula with fitlogs off. -/
def dLinFit : List Obs := [{ res := 1, censored := true }, { res := 2, censored := false },
  { res := 4, censored := false }]

/-! Basic lemmas about the counting, sorting, deduplication and minimum
helpers. -/

theorem countObs_cons (p : Obs → Prop) [DecidablePred p] (o : Obs) (l : List Obs) :
    countObs p (o :: l) = (if p o then 1 else 0) + countObs p l := rfl

theorem countObs_congr {p q : Obs → Prop} [DecidablePred p] [DecidablePred q]
    (h : ∀ o, p o ↔ q o) : ∀ l : List Obs, countObs p l = countObs q l := by
  intro l
  induction l with
  | nil => rfl
  | cons o rest ih =>
    rw [countObs_cons, countObs_cons, ih]
    by_cases hq : q o
    · rw [if_pos ((h o).mpr hq), if_pos hq]
    · rw [if_neg (fun hp => hq ((h o).mp hp)), if_neg hq]

theorem countObs_append (p : Obs → Prop) [DecidablePred p] (l1 l2 : List Obs) :
    countObs p (l1 ++ l2) = countObs p l1 + countObs p l2 := by
  induction l1 with
  | nil => simp [countObs]
  | cons o rest ih => simp only [List.cons_append, countObs_cons, ih]; omega

theorem countObs_pos (p : Obs → Prop) [DecidablePred p] {o : Obs} {l : List Obs}
    (ho : o ∈ l) (hp : p o) : 1 ≤ countObs p l := by
  induction l with
  | nil => cases ho
  | cons x rest ih =>
    rw [countObs_cons]
    rcases List.mem_cons.mp ho with h | h
    · rw [h] at hp; rw [if_pos hp]; omega
    · have := ih h; omega

theorem countObs_insertByRes (p : Obs → Prop) [DecidablePred p] (o : Obs) (l : List Obs) :
    countObs p (insertByRes o l) = (if p o then 1 else 0) + countObs p l := by
  induction l with
  | nil => rfl
  | cons x rest ih =>
    rw [insertByRes]
    by_cases hlt : o.res < x.res
    · rw [if_pos hlt, countObs_cons]
    · rw [if_neg hlt, countObs_cons, ih, countObs_cons]; omega

theorem countObs_sortByRes (p : Obs → Prop) [DecidablePred p] (l : List Obs) :
    countObs p (sortByRes l) = countObs p l := by
  induction l with
  | nil => rfl
  | cons o rest ih =>
    show countObs p (insertByRes o (sortByRes rest)) = _
    rw [countObs_insertByRes, ih, countObs_cons]

theorem countObs_filter (p : Obs → Prop) [DecidablePred p] (f : Obs → Bool) (l : List Obs) :
    countObs p (l.filter f) = countObs (fun o => p o ∧ f o = true) l := by
  induction l with
  | nil => rfl
  | cons o rest ih =>
    rw [List.filter_cons]
    by_cases hf : f o = true
    · rw [if_pos hf, countObs_cons, ih, countObs_cons]
      by_cases hp : p o
      · rw [if_pos hp, if_pos ⟨hp, hf⟩]
      · rw [if_neg hp, if_neg (fun hc => hp hc.1)]
    · rw [if_neg hf, ih, countObs_cons, if_neg (fun hc => hf hc.2)]; omega

theorem countObs_rosSort (p : Obs → Prop) [DecidablePred p] (l : List Obs) :
    countObs p (rosSort l) = countObs p l := by
  rw [rosSort, countObs_append, countObs_sortByRes, countObs_sortByRes,
    countObs_filter, countObs_filter]
  induction l with
  | nil => rfl
  | cons o rest ih =>
    rw [countObs_cons, countObs_cons, countObs_cons]
    cases hc : o.censored
    · by_cases hp : p o
      · rw [if_neg (by simp [hc]), if_pos (by simp [hc, hp]), if_pos hp]; omega
      · rw [if_neg (by simp [hp]), if_neg (by simp [hp]), if_neg hp]; omega
    · by_cases hp : p o
      · rw [if_pos (by simp [hc, hp]), if_neg (by simp [hc]), if_pos hp]; omega
      · rw [if_neg (by simp [hp]), if_neg (by simp [hp]), if_neg hp]; omega

theorem mem_uniqAux {a : ℚ} : ∀ (l seen : List ℚ), a ∈ uniqAux seen l ↔ a ∈ l ∧ a ∉ seen := by
  intro l
  induction l with
  | nil => intro seen; simp [uniqAux]
  | cons x xs ih =>
    intro seen
    rw [uniqAux]
    by_cases hx : x ∈ seen
    · rw [if_pos hx, ih]
      constructor
      · rintro ⟨h1, h2⟩; exact ⟨List.mem_cons_of_mem _ h1, h2⟩
      · rintro ⟨h1, h2⟩
        rcases List.mem_cons.mp h1 with rfl | h1
        · exact absurd hx h2
        · exact ⟨h1, h2⟩
    · rw [if_neg hx]
      constructor
      · intro h
        rcases List.mem_cons.mp h with rfl | h
        · exact ⟨List.mem_cons_self _ _, hx⟩
        · rcases (ih _).mp h with ⟨h1, h2⟩
          exact ⟨List.mem_cons_of_mem _ h1,
            fun hs => h2 (List.mem_cons_of_mem _ hs)⟩
      · rintro ⟨h1, h2⟩
        rcases List.mem_cons.mp h1 with rfl | h1
        · exact List.mem_cons_self _ _
        · by_cases hax : a = x
          · rw [hax]; exact List.mem_cons_self _ _
          · refine List.mem_cons_of_mem _ ((ih _).mpr ⟨h1, fun hs => ?_⟩)
            rcases List.mem_cons.mp hs with h | h
            · exact hax h
            · exact h2 h

theorem mem_pandasUnique {a : ℚ} {l : List ℚ} : a ∈ pandasUnique l ↔ a ∈ l := by
  rw [pandasUnique, mem_uniqAux]
  simp

theorem listMin_le_of_mem {a : ℚ} : ∀ {l : List ℚ}, a ∈ l → listMin l ≤ a := by
  intro l
  induction l with
  | nil => intro h; cases h
  | cons x xs ih =>
    intro h
    cases xs with
    | nil =>
      rcases List.mem_cons.mp h with rfl | h
      · exact le_refl _
      · cases h
    | cons y ys =>
      rw [listMin]
      rcases List.mem_cons.mp h with rfl | h
      · exact min_le_left _ _
      · exact le_trans (min_le_right _ _) (ih h)

theorem listMin_mem : ∀ {l : List ℚ}, l ≠ [] → listMin l ∈ l := by
  intro l
  induction l with
  | nil => intro h; exact absurd rfl h
  | cons x xs ih =>
    intro _
    cases xs with
    | nil => exact List.mem_cons_self _ _
    | cons y ys =>
      rw [listMin]
      rcases le_total x (listMin (y :: ys)) with h | h
      · rw [min_eq_left h]; exact List.mem_cons_self _ _
      · rw [min_eq_right h]
        exact List.mem_cons_of_mem _ (ih (by simp))

theorem getD_mem_of_lt {α : Type} (l : List α) {n : ℕ} (h : n < l.length) (d : α) :
    l.getD n d ∈ l := by
  rw [List.getD_eq_getElem?_getD, List.getElem?_eq_getElem h]
  exact List.getElem_mem h

theorem getD_map_range {α : Type} (f : ℕ → α) {N n : ℕ} (h : n < N) (d : α) :
    ((List.range N).map f).getD n d = f n := by
  rw [List.getD_eq_getElem?_getD, List.getElem?_map, List.getElem?_range h]
  rfl

theorem getD_map_of_lt {α β : Type} (f : α → β) (l : List α) {n : ℕ} (h : n < l.length)
    (d : β) (d0 : α) : (l.map f).getD n d = f (l.getD n d0) := by
  rw [List.getD_eq_getElem?_getD, List.getElem?_map, List.getElem?_eq_getElem h,
    List.getD_eq_getElem?_getD, List.getElem?_eq_getElem h]
  rfl

/-! Lemmas about the PE recursion. -/

theorem peCompute_ne_nil (rs : List ℚ) : peCompute rs ≠ [] := by
  cases rs <;> simp [peCompute]

theorem peCompute_length (rs : List ℚ) : (peCompute rs).length = rs.length + 1 := by
  induction rs with
  | nil => rfl
  | cons r rest ih => simp only [peCompute, List.length_cons, ih]

theorem headD_eq_getD_zero (l : List ℚ) : l.headD 0 = l.getD 0 0 := by
  cases l <;> rfl

theorem peCompute_getD_length (rs : List ℚ) : (peCompute rs).getD rs.length 0 = 0 := by
  induction rs with
  | nil => rfl
  | cons r rest ih =>
    have hpc : peCompute (r :: rest)
        = ((peCompute rest).headD 0 + r * (1 - (peCompute rest).headD 0))
          :: peCompute rest := rfl
    rw [List.length_cons, hpc, List.getD_cons_succ, ih]

theorem peCompute_rec (rs : List ℚ) : ∀ i, i < rs.length →
    (peCompute rs).getD i 0
      = (peCompute rs).getD (i + 1) 0
        + rs.getD i 0 * (1 - (peCompute rs).getD (i + 1) 0) := by
  induction rs with
  | nil => intro i hi; cases hi
  | cons r rest ih =>
    intro i hi
    have hpc : peCompute (r :: rest)
        = ((peCompute rest).headD 0 + r * (1 - (peCompute rest).headD 0))
          :: peCompute rest := rfl
    cases i with
    | zero =>
      rw [hpc, List.getD_cons_zero, List.getD_cons_succ, List.getD_cons_zero,
        headD_eq_getD_zero]
    | succ n =>
      rw [hpc, List.getD_cons_succ, List.getD_cons_succ, List.getD_cons_succ]
      exact ih n (Nat.lt_of_succ_lt_succ hi)

theorem peCompute_bounds (rs : List ℚ) (h : ∀ r ∈ rs, 0 ≤ r ∧ r ≤ 1) :
    ∀ x ∈ peCompute rs, 0 ≤ x ∧ x ≤ 1 := by
  induction rs with
  | nil => intro x hx; rw [peCompute, List.mem_singleton] at hx; rw [hx]; norm_num
  | cons r rest ih =>
    have hr := h r (List.mem_cons_self _ _)
    have htl : ∀ x ∈ peCompute rest, 0 ≤ x ∧ x ≤ 1 :=
      ih (fun x hx => h x (List.mem_cons_of_mem _ hx))
    have hhead : 0 ≤ (peCompute rest).headD 0 ∧ (peCompute rest).headD 0 ≤ 1 := by
      cases hpc : peCompute rest with
      | nil => exact absurd hpc (peCompute_ne_nil rest)
      | cons a tl =>
        have := htl a (by rw [hpc]; exact List.mem_cons_self _ _)
        simpa using this
    intro x hx
    rcases List.mem_cons.mp hx with rfl | hx
    · constructor
      · nlinarith [hr.1, hr.2, hhead.1, hhead.2]
      · nlinarith [hr.1, hr.2, hhead.1, hhead.2]
    · exact htl x hx

/-! Lemmas about the shared row builder and the three estimator branches. -/

theorem mkOutRows_length (pres : List PreRow) (ppF zF mdF : ℕ → Option ℚ)
    (finF : ℕ → ℚ) : (mkOutRows pres ppF zF mdF finF).length = pres.length := by
  simp [mkOutRows]

theorem mkOutRows_getD (pres : List PreRow) (ppF zF mdF : ℕ → Option ℚ)
    (finF : ℕ → ℚ) {n : ℕ} (h : n < pres.length) :
    (mkOutRows pres ppF zF mdF finF).getD n default =
      { res := (pres.getD n default).res,
        censored := (pres.getD n default).censored,
        dlIdx := (pres.getD n default).dlIdx,
        normRank := rankAt pres n, avgRank := avgRankAt pres n,
        plotPos := ppF n, zprelim := zF n, modeled := mdF n, final := finF n } := by
  unfold mkOutRows
  rw [getD_map_range _ h]

theorem mkOutRows_mem (pres : List PreRow) (ppF zF mdF : ℕ → Option ℚ)
    (finF : ℕ → ℚ) {r : OutRow} (hr : r ∈ mkOutRows pres ppF zF mdF finF) :
    ∃ n, n < pres.length ∧ r =
      { res := (pres.getD n default).res,
        censored := (pres.getD n default).censored,
        dlIdx := (pres.getD n default).dlIdx,
        normRank := rankAt pres n, avgRank := avgRankAt pres n,
        plotPos := ppF n, zprelim := zF n, modeled := mdF n, final := finF n } := by
  unfold mkOutRows at hr
  rcases List.mem_map.mp hr with ⟨n, hn, hrn⟩
  exact ⟨n, List.mem_range.mp hn, hrn.symm⟩

theorem runMR_nocens (ops : MathOps) (fitlogs : Bool) (data : List Obs)
    (h1 : nNdOf data = 0) :
    runMR ops fitlogs data =
      { dls := dlsOf data, pe := [],
        rows := mkOutRows (presOf data) (fun _ => none) (fun _ => none) (fun _ => none)
          (fun n => ((presOf data).getD n default).res),
        fit := none } := by
  unfold runMR
  rw [if_pos h1]

theorem runMR_fallback (ops : MathOps) (fitlogs : Bool) (data : List Obs)
    (h1 : nNdOf data ≠ 0)
    (h2 : nTotOf data - nNdOf data < 2 ∨ (nNdOf data : ℚ) / (nTotOf data : ℚ) > 4 / 5) :
    runMR ops fitlogs data =
      { dls := dlsOf data, pe := List.replicate ((dlsOf data).length + 1) 0,
        rows := mkOutRows (presOf data) (fun _ => none) (fun _ => none) (fun _ => none)
          (fun n =>
            if ((presOf data).getD n default).censored = true
            then 1 / 2 * ((presOf data).getD n default).res
            else ((presOf data).getD n default).res),
        fit := none } := by
  unfold runMR
  rw [if_neg h1, if_pos h2]

theorem runMR_regression (ops : MathOps) (fitlogs : Bool) (data : List Obs)
    (h1 : nNdOf data ≠ 0)
    (h2 : ¬(nTotOf data - nNdOf data < 2 ∨ (nNdOf data : ℚ) / (nTotOf data : ℚ) > 4 / 5)) :
    runMR ops fitlogs data =
      { dls := dlsOf data, pe := peOf data,
        rows := mkOutRows (presOf data)
          (fun n => some (plotPosAt (dlsOf data) (peOf data)
            ((presOf data).getD n default) (rankAt (presOf data) n)))
          (fun n => some (zAtOf ops data n))
          (fun n =>
            if ((presOf data).getD n default).censored = true
            then some (ops.expf ((fitOf ops fitlogs data).1 * zAtOf ops data n
              + (fitOf ops fitlogs data).2))
            else none)
          (fun n =>
            if ((presOf data).getD n default).censored = true
            then ops.expf ((fitOf ops fitlogs data).1 * zAtOf ops data n
              + (fitOf ops fitlogs data).2)
            else ((presOf data).getD n default).res),
        fit := some (fitOf ops fitlogs data) } := by
  unfold runMR
  rw [if_neg h1, if_neg h2]

theorem runMR_dls (ops : MathOps) (fitlogs : Bool) (data : List Obs) :
    (runMR ops fitlogs data).dls = dlsOf data := by
  unfold runMR
  split
  · rfl
  · split <;> rfl

/-! Structure of the Cohn table entries. -/

theorem cohn_mem_charac {l : List Obs} {e : DLEntry} (he : e ∈ cohnDLs l) :
    e.lower = e.DL ∧ e.A = countA l e.lower e.upper ∧ e.B = countB l e.lower
      ∧ e.C = countC l e.lower := by
  simp only [cohnDLs] at he
  split at he
  · exact absurd he (List.not_mem_nil e)
  · rcases List.mem_map.mp he with ⟨i, _, rfl⟩
    exact ⟨rfl, rfl, rfl, rfl⟩

theorem countA_pos_of_mem {l : List Obs} {o : Obs} (ho : o ∈ l)
    (hdet : o.censored = false) {low : ℚ} {upp : Option ℚ}
    (h1 : low ≤ o.res) (h2 : ltUpper o.res upp = true) : 1 ≤ countA l low upp :=
  countObs_pos _ ho ⟨h1, h2, hdet⟩

theorem countB_pos_of_censval {l : List Obs} {v : ℚ}
    (hv : v ∈ (l.filter (fun o => o.censored)).map (fun o => o.res))
    {low : ℚ} (hle : v ≤ low) : 1 ≤ countB l low := by
  rcases List.mem_map.mp hv with ⟨o, ho, rfl⟩
  have hmem := List.mem_filter.mp ho
  have h1 : 1 ≤ countObs (fun o => o.res ≤ low ∧ o.censored = true) l :=
    countObs_pos _ hmem.1 ⟨hle, hmem.2⟩
  unfold countB
  omega

/-- Every real row of the Cohn table has A + B at least 1: rows at a real
censored limit have a censored observation at or below their lower bound
(B >= 1), and the optional prepended row at the global minimum has the
detected minimum observation inside its interval (A >= 1).  Hence the
denominators of the backward PE recursion of ros.py lines 375-379 are
never zero on any reachable table, and the total rational division of the
embedding agrees with the Python float division there. -/
theorem cohn_denom_pos (l : List Obs) : ∀ e ∈ cohnDLs l, 1 ≤ e.A + e.B := by
  intro e he
  simp only [cohnDLs] at he
  split at he
  · exact absurd he (List.not_mem_nil e)
  · rename_i h0
    by_cases hpre : listMin (l.map (fun o => o.res))
        < listMin (pandasUnique ((l.filter (fun o => o.censored)).map (fun o => o.res)))
    · rw [if_pos hpre] at he
      rcases List.mem_map.mp he with ⟨i, hir, rfl⟩
      have hi := List.mem_range.mp hir
      cases i with
      | zero =>
        dsimp only
        rw [List.getD_cons_zero]
        have hlnil : l.map (fun o => o.res) ≠ [] := by
          intro hmap
          apply h0
          have : l = [] := by
            cases l with
            | nil => rfl
            | cons a as => simp at hmap
          rw [this]
          rfl
        have hminmem := listMin_mem hlnil
        rcases List.mem_map.mp hminmem with ⟨o, ho, hores⟩
        have hdet : o.censored = false := by
          by_contra hcens
          have hcens : o.censored = true := by
            cases hc : o.censored
            · exact absurd hc hcens
            · rfl
          have hocv : o.res ∈ (l.filter (fun o => o.censored)).map (fun o => o.res) :=
            List.mem_map.mpr ⟨o, List.mem_filter.mpr ⟨ho, hcens⟩, rfl⟩
          have := listMin_le_of_mem (mem_pandasUnique.mpr hocv)
          rw [hores] at this
          exact absurd (lt_of_lt_of_le hpre this) (lt_irrefl _)
        have hlen1 : 0 + 1 <
            (listMin (l.map (fun o => o.res))
              :: pandasUnique ((l.filter (fun o => o.censored)).map (fun o => o.res))).length := by
          simp only [List.length_cons]
          have : pandasUnique ((l.filter (fun o => o.censored)).map (fun o => o.res)) ≠ [] := h0
          cases hq : pandasUnique ((l.filter (fun o => o.censored)).map (fun o => o.res)) with
          | nil => exact absurd hq this
          | cons a as => simp
        rw [if_pos hlen1, List.getD_cons_succ]
        have hup : ltUpper o.res
            (some ((pandasUnique ((l.filter (fun o => o.censored)).map (fun o => o.res))).getD 0 0))
            = true := by
          have h0lt : 0 <
              (pandasUnique ((l.filter (fun o => o.censored)).map (fun o => o.res))).length := by
            cases hq : pandasUnique ((l.filter (fun o => o.censored)).map (fun o => o.res)) with
            | nil => exact absurd hq h0
            | cons a as => simp
          have hmem0 := getD_mem_of_lt _ h0lt (0 : ℚ)
          have hles := listMin_le_of_mem hmem0
          rw [ltUpper]
          rw [decide_eq_true_eq, hores]
          exact lt_of_lt_of_le hpre hles
        have hA := countA_pos_of_mem ho hdet (le_of_eq hores.symm) hup
        omega
      | succ j =>
        dsimp only
        rw [List.getD_cons_succ]
        have hj : j <
            (pandasUnique ((l.filter (fun o => o.censored)).map (fun o => o.res))).length := by
          simp only [List.length_cons] at hi
          omega
        have hmemj := getD_mem_of_lt _ hj (0 : ℚ)
        have hB := countB_pos_of_censval (mem_pandasUnique.mp hmemj) (le_refl _)
        omega
    · rw [if_neg hpre] at he
      rcases List.mem_map.mp he with ⟨i, hir, rfl⟩
      have hi := List.mem_range.mp hir
      dsimp only
      have hmemi := getD_mem_of_lt _ hi (0 : ℚ)
      have hB := countB_pos_of_censval (mem_pandasUnique.mp hmemi) (le_refl _)
      omega

/-! Relating the code-side B count to the claim-side B count. -/

theorem countB_eq_spec (data : List Obs) (lower : ℚ) :
    countB data lower = specB data lower := by
  unfold countB specB
  induction data with
  | nil => rfl
  | cons o rest ih =>
    rw [countObs_cons, countObs_cons, countObs_cons, countObs_cons]
    rcases lt_trichotomy o.res lower with h | h | h
    · cases hc : o.censored
      · rw [if_neg (fun hx => by simp at hx), if_pos ⟨h, rfl⟩, if_pos h,
          if_neg (fun hx => by simp at hx)]
        omega
      · rw [if_pos ⟨le_of_lt h, rfl⟩, if_neg (fun hx => by simp at hx),
          if_pos h, if_neg (fun hx => absurd hx.2 (ne_of_lt h))]
        omega
    · cases hc : o.censored
      · rw [if_neg (fun hx => by simp at hx),
          if_neg (fun hx => by rw [h] at hx; exact lt_irrefl _ hx.1),
          if_neg (by rw [h]; exact lt_irrefl _),
          if_neg (fun hx => by simp at hx)]
        omega
      · rw [if_pos ⟨le_of_eq h, rfl⟩, if_neg (fun hx => by simp at hx),
          if_neg (by rw [h]; exact lt_irrefl _), if_pos ⟨rfl, h⟩]
        omega
    · rw [if_neg (fun hx => absurd hx.1 (not_le.mpr h)),
        if_neg (fun hx => absurd hx.1 (lt_asymm h)),
        if_neg (not_lt.mpr (le_of_lt h)),
        if_neg (fun hx => absurd hx.2 (ne_of_gt h))]
      omega

/-- C2: for every detection-limit entry produced by any MR run, the Cohn
count A equals the number of detected input observations with value in
[lower, upper), B equals the number of input observations strictly below
lower plus the censored ones exactly at lower, and C equals the number of
censored input observations exactly at lower. -/
theorem C2_cohn_counts (ops : MathOps) (fitlogs : Bool) (data : List Obs)
    {e : DLEntry} (he : e ∈ (runMR ops fitlogs data).dls) :
    e.A = specA data e.lower e.upper ∧ e.B = specB data e.lower
      ∧ e.C = specC data e.lower := by
  rw [runMR_dls] at he
  unfold dlsOf at he
  have hc := cohn_mem_charac he
  refine ⟨?_, ?_, ?_⟩
  · rw [hc.2.1]
    unfold countA specA
    rw [countObs_rosSort]
    exact countObs_congr (fun o => by tauto) data
  · rw [hc.2.2.1]
    have hsort : countB (rosSort data) e.lower = countB data e.lower := by
      unfold countB
      rw [countObs_rosSort, countObs_rosSort]
    rw [hsort, countB_eq_spec]
  · rw [hc.2.2.2]
    unfold countC specC
    rw [countObs_rosSort]

/-- C2 witness: the single real entry of the table of the tied example has
the claimed counts. -/
theorem C2_witness :
    ({ DL := 1, lower := 1, upper := none, A := 3, B := 1, C := 1 } : DLEntry).A
        = specA dTies 1 none
      ∧ ({ DL := 1, lower := 1, upper := none, A := 3, B := 1, C := 1 } : DLEntry).B
        = specB dTies 1
      ∧ ({ DL := 1, lower := 1, upper := none, A := 3, B := 1, C := 1 } : DLEntry).C
        = specC dTies 1 :=
  C2_cohn_counts opsEx true dTies (by
    rw [runMR_dls]
    unfold dlsOf
    norm_num [cohnDLs, rosSort, sortByRes, insertByRes, dTies, List.filter,
      pandasUnique, uniqAux, listMin, countA, countB, countC, countObs, ltUpper,
      List.range_succ])

/-! Rank facts about the shared row builder. -/

theorem runMR_rows_cases (ops : MathOps) (fitlogs : Bool) (data : List Obs) :
    ∃ ppF zF mdF finF,
      (runMR ops fitlogs data).rows = mkOutRows (presOf data) ppF zF mdF finF := by
  unfold runMR
  split
  · exact ⟨_, _, _, _, rfl⟩
  · split
    · exact ⟨_, _, _, _, rfl⟩
    · exact ⟨_, _, _, _, rfl⟩

theorem mkOutRows_rank_zero (pres : List PreRow) (ppF zF mdF : ℕ → Option ℚ)
    (finF : ℕ → ℚ) (h : 0 < pres.length) :
    ((mkOutRows pres ppF zF mdF finF).getD 0 default).normRank = 1 := by
  rw [mkOutRows_getD _ _ _ _ _ h]
  rfl

theorem mkOutRows_rank_succ (pres : List PreRow) (ppF zF mdF : ℕ → Option ℚ)
    (finF : ℕ → ℚ) (n : ℕ) (h : n + 1 < pres.length) :
    ((mkOutRows pres ppF zF mdF finF).getD (n + 1) default).normRank
      = if ((mkOutRows pres ppF zF mdF finF).getD (n + 1) default).dlIdx
            ≠ ((mkOutRows pres ppF zF mdF finF).getD n default).dlIdx
          ∨ ((mkOutRows pres ppF zF mdF finF).getD (n + 1) default).censored
            ≠ ((mkOutRows pres ppF zF mdF finF).getD n default).censored
        then 1
        else ((mkOutRows pres ppF zF mdF finF).getD n default).normRank + 1 := by
  rw [mkOutRows_getD _ _ _ _ _ h, mkOutRows_getD _ _ _ _ _ (Nat.lt_of_succ_lt h)]
  rw [rankAt]

theorem mkOutRows_filter_detect (pres : List PreRow) (ppF zF mdF : ℕ → Option ℚ)
    (finF : ℕ → ℚ) (d : ℕ) (v : ℚ) :
    (mkOutRows pres ppF zF mdF finF).filter (fun s =>
        decide (s.censored = false ∧ s.dlIdx = d ∧ s.res = v))
      = (detectGroupIdxs pres d v).map (fun n =>
          { res := (pres.getD n default).res,
            censored := (pres.getD n default).censored,
            dlIdx := (pres.getD n default).dlIdx,
            normRank := rankAt pres n, avgRank := avgRankAt pres n,
            plotPos := ppF n, zprelim := zF n, modeled := mdF n, final := finF n }) := by
  unfold mkOutRows detectGroupIdxs
  rw [List.filter_map]
  rfl

theorem mkOutRows_avg_censored (pres : List PreRow) (ppF zF mdF : ℕ → Option ℚ)
    (finF : ℕ → ℚ) {r : OutRow} (hr : r ∈ mkOutRows pres ppF zF mdF finF)
    (hc : r.censored = true) : r.avgRank = (r.normRank : ℚ) := by
  rcases mkOutRows_mem _ _ _ _ _ hr with ⟨n, hn, rfl⟩
  show avgRankAt pres n = _
  unfold avgRankAt
  rw [if_pos hc]

theorem mkOutRows_avg_detect (pres : List PreRow) (ppF zF mdF : ℕ → Option ℚ)
    (finF : ℕ → ℚ) {r : OutRow} (hr : r ∈ mkOutRows pres ppF zF mdF finF)
    (hc : r.censored = false) :
    r.avgRank =
      (((mkOutRows pres ppF zF mdF finF).filter (fun s =>
          decide (s.censored = false ∧ s.dlIdx = r.dlIdx ∧ s.res = r.res))).map
        (fun s => (s.normRank : ℚ))).sum
      / (((mkOutRows pres ppF zF mdF finF).filter (fun s =>
          decide (s.censored = false ∧ s.dlIdx = r.dlIdx ∧ s.res = r.res))).length : ℚ) := by
  rcases mkOutRows_mem _ _ _ _ _ hr with ⟨n, hn, rfl⟩
  have hc2 : (pres.getD n default).censored = false := hc
  rw [mkOutRows_filter_detect, List.map_map, List.length_map]
  show avgRankAt pres n = _
  unfold avgRankAt
  rw [if_neg (by rw [hc2]; exact Bool.false_ne_true)]
  rfl

theorem mkOutRows_avg_tie (pres : List PreRow) (ppF zF mdF : ℕ → Option ℚ)
    (finF : ℕ → ℚ) {r s : OutRow}
    (hr : r ∈ mkOutRows pres ppF zF mdF finF) (hs : s ∈ mkOutRows pres ppF zF mdF finF)
    (hcr : r.censored = false) (hcs : s.censored = false)
    (hd : r.dlIdx = s.dlIdx) (hv : r.res = s.res) : r.avgRank = s.avgRank := by
  rw [mkOutRows_avg_detect _ _ _ _ _ hr hcr, mkOutRows_avg_detect _ _ _ _ _ hs hcs,
    hd, hv]

/-- Evaluation of the whole pipeline on the tied example dTies (regression
path): one detection limit (A = 3, B = 1, C = 1), PE = [3/4, 0], raw ranks
1, 1, 2, 3, averaged ranks 1, 3/2, 3/2, 3, and plotting positions built
from the raw ranks. -/
theorem runMR_dTies : runMR opsEx true dTies =
    { dls := [{ DL := 1, lower := 1, upper := none, A := 3, B := 1, C := 1 }],
      pe := [3/4, 0],
      rows := [
        { res := 1, censored := true, dlIdx := 0, normRank := 1, avgRank := 1,
          plotPos := some (1/8), zprelim := some (1/8), modeled := some 1, final := 1 },
        { res := 2, censored := false, dlIdx := 0, normRank := 1, avgRank := 3/2,
          plotPos := some (7/16), zprelim := some (7/16), modeled := none, final := 2 },
        { res := 2, censored := false, dlIdx := 0, normRank := 2, avgRank := 3/2,
          plotPos := some (5/8), zprelim := some (5/8), modeled := none, final := 2 },
        { res := 3, censored := false, dlIdx := 0, normRank := 3, avgRank := 3,
          plotPos := some (13/16), zprelim := some (13/16), modeled := none, final := 3 }],
      fit := some (8/3, 2/3) } := by
  norm_num [runMR, nTotOf, nNdOf, dlsOf, presOf, peOf, zAtOf, fitOf, sortedOf,
    cohnDLs, rosSort, sortByRes, insertByRes, dTies, List.filter,
    pandasUnique, uniqAux, listMin, countA, countB, countC, countObs, ltUpper,
    dlIndex, dlIndexAux, rankAt, avgRankAt, detectGroupIdxs, peCompute,
    plotPosAt, linregress, mkOutRows, opsEx, List.range_succ]

/-- C4: over the canonically ordered rows of any MR run, the raw rank is 1
at the first row and whenever DLIndex or the censor status differs from
the previous row, else the previous raw rank plus one; a censored row's
averaged rank is its raw rank; a detected row's averaged rank is the mean
of the raw ranks over the detected rows sharing its (DLIndex, value); so
any two such tied detects carry the identical averaged rank. -/
theorem C4_rank_assignment (ops : MathOps) (fitlogs : Bool) (data : List Obs) :
    (0 < (runMR ops fitlogs data).rows.length →
      ((runMR ops fitlogs data).rows.getD 0 default).normRank = 1)
    ∧ (∀ n, n + 1 < (runMR ops fitlogs data).rows.length →
        ((runMR ops fitlogs data).rows.getD (n + 1) default).normRank
          = if ((runMR ops fitlogs data).rows.getD (n + 1) default).dlIdx
                ≠ ((runMR ops fitlogs data).rows.getD n default).dlIdx
              ∨ ((runMR ops fitlogs data).rows.getD (n + 1) default).censored
                ≠ ((runMR ops fitlogs data).rows.getD n default).censored
            then 1
            else ((runMR ops fitlogs data).rows.getD n default).normRank + 1)
    ∧ (∀ r ∈ (runMR ops fitlogs data).rows, r.censored = true →
        r.avgRank = (r.normRank : ℚ))
    ∧ (∀ r ∈ (runMR ops fitlogs data).rows, r.censored = false →
        r.avgRank =
          (((runMR ops fitlogs data).rows.filter (fun s =>
              decide (s.censored = false ∧ s.dlIdx = r.dlIdx ∧ s.res = r.res))).map
            (fun s => (s.normRank : ℚ))).sum
          / (((runMR ops fitlogs data).rows.filter (fun s =>
              decide (s.censored = false ∧ s.dlIdx = r.dlIdx ∧ s.res = r.res))).length : ℚ))
    ∧ (∀ r s, r ∈ (runMR ops fitlogs data).rows → s ∈ (runMR ops fitlogs data).rows →
        r.censored = false → s.censored = false → r.dlIdx = s.dlIdx → r.res = s.res →
        r.avgRank = s.avgRank) := by
  rcases runMR_rows_cases ops fitlogs data with ⟨ppF, zF, mdF, finF, hrows⟩
  rw [hrows]
  refine ⟨?_, ?_, ?_, ?_, ?_⟩
  · intro h
    exact mkOutRows_rank_zero _ _ _ _ _ (by rwa [mkOutRows_length] at h)
  · intro n hn
    exact mkOutRows_rank_succ _ _ _ _ _ n (by rwa [mkOutRows_length] at hn)
  · intro r hr hc
    exact mkOutRows_avg_censored _ _ _ _ _ hr hc
  · intro r hr hc
    exact mkOutRows_avg_detect _ _ _ _ _ hr hc
  · intro r s hr hs hcr hcs hd hv
    exact mkOutRows_avg_tie _ _ _ _ _ hr hs hcr hcs hd hv

/-- C4 witness: on the tied example the two tied detects (rows 1 and 2)
receive the identical averaged rank. -/
theorem C4_witness :
    ((runMR opsEx true dTies).rows.getD 1 default).avgRank
      = ((runMR opsEx true dTies).rows.getD 2 default).avgRank := by
  refine (C4_rank_assignment opsEx true dTies).2.2.2.2
    ((runMR opsEx true dTies).rows.getD 1 default)
    ((runMR opsEx true dTies).rows.getD 2 default) ?_ ?_ ?_ ?_ ?_ ?_
  · rw [runMR_dTies]; norm_num [List.getD]
  · rw [runMR_dTies]; norm_num [List.getD]
  · rw [runMR_dTies]; norm_num [List.getD]
  · rw [runMR_dTies]; norm_num [List.getD]
  · rw [runMR_dTies]; norm_num [List.getD]
  · rw [runMR_dTies]; norm_num [List.getD]

/-! The PE column of a run: C1 and C8. -/

theorem getLastD_replicate_zero : ∀ k : ℕ, (List.replicate k (0:ℚ)).getLastD 0 = 0
  | 0 => rfl
  | k + 1 => by
    rw [List.replicate_succ, List.getLastD_cons]
    exact getLastD_replicate_zero k

theorem getLastD_zero_eq_getD (l : List ℚ) : l.getLastD 0 = l.getD (l.length - 1) 0 := by
  rw [List.getLastD_eq_getLast?, List.getLast?_eq_getElem?, List.getD_eq_getElem?_getD]

/-- C1: on the regression path the PE column has one entry per real
detection-limit row plus the appended sentinel, the sentinel entry is 0,
and every real entry i obeys the backward recursion
PE[i] = PE[i+1] + (A[i]/(A[i]+B[i])) (1 - PE[i+1]), from the second-to-last
entry of the table down to the first. -/
theorem C1_pe_backward_recursion (ops : MathOps) (fitlogs : Bool) (data : List Obs)
    (h1 : nNdOf data ≠ 0)
    (h2 : ¬(nTotOf data - nNdOf data < 2 ∨ (nNdOf data : ℚ) / (nTotOf data : ℚ) > 4 / 5)) :
    (runMR ops fitlogs data).pe.length = (runMR ops fitlogs data).dls.length + 1
    ∧ (runMR ops fitlogs data).pe.getD (runMR ops fitlogs data).dls.length 0 = 0
    ∧ ∀ i < (runMR ops fitlogs data).dls.length,
        (runMR ops fitlogs data).pe.getD i 0
          = (runMR ops fitlogs data).pe.getD (i + 1) 0
            + (((runMR ops fitlogs data).dls.getD i default).A : ℚ)
              / ((((runMR ops fitlogs data).dls.getD i default).A : ℚ)
                + (((runMR ops fitlogs data).dls.getD i default).B : ℚ))
              * (1 - (runMR ops fitlogs data).pe.getD (i + 1) 0) := by
  rw [runMR_regression ops fitlogs data h1 h2]
  dsimp only
  refine ⟨?_, ?_, ?_⟩
  · rw [peOf, peCompute_length, List.length_map]
  · rw [peOf]
    have h := peCompute_getD_length
      ((dlsOf data).map (fun e => (e.A : ℚ) / ((e.A : ℚ) + (e.B : ℚ))))
    rwa [List.length_map] at h
  · intro i hi
    rw [peOf]
    have hrec := peCompute_rec
      ((dlsOf data).map (fun e => (e.A : ℚ) / ((e.A : ℚ) + (e.B : ℚ)))) i
      (by rw [List.length_map]; exact hi)
    rw [hrec, getD_map_of_lt _ _ hi _ default]

/-- C1 witness: the recursion facts instantiated on the tied example. -/
theorem C1_witness :
    (runMR opsEx true dTies).pe.length = (runMR opsEx true dTies).dls.length + 1
    ∧ (runMR opsEx true dTies).pe.getD (runMR opsEx true dTies).dls.length 0 = 0
    ∧ (runMR opsEx true dTies).pe.getD 0 0
        = (runMR opsEx true dTies).pe.getD (0 + 1) 0
          + (((runMR opsEx true dTies).dls.getD 0 default).A : ℚ)
            / ((((runMR opsEx true dTies).dls.getD 0 default).A : ℚ)
              + (((runMR opsEx true dTies).dls.getD 0 default).B : ℚ))
            * (1 - (runMR opsEx true dTies).pe.getD (0 + 1) 0) := by
  have h := C1_pe_backward_recursion opsEx true dTies
    (by norm_num [nNdOf, countObs, dTies])
    (by norm_num [nTotOf, nNdOf, countObs, dTies])
  exact ⟨h.1, h.2.1, h.2.2 0 (by rw [runMR_dls]; norm_num [dlsOf, cohnDLs, rosSort,
    sortByRes, insertByRes, dTies, List.filter, pandasUnique, uniqAux, listMin,
    List.range_succ])⟩

/-- Evaluation of the pipeline on dPeOne (censored 3 between detects 1 and
5): the sub-limit minimum 1 is prepended as a synthetic limit with B = 0,
driving PE[0] to exactly 1. -/
theorem runMR_dPeOne : runMR opsEx true dPeOne =
    { dls := [{ DL := 1, lower := 1, upper := some 3, A := 1, B := 0, C := 0 },
              { DL := 3, lower := 3, upper := none, A := 1, B := 2, C := 1 }],
      pe := [1, 1/3, 0],
      rows := [
        { res := 3, censored := true, dlIdx := 1, normRank := 1, avgRank := 1,
          plotPos := some (1/3), zprelim := some (1/3), modeled := some 1, final := 1 },
        { res := 1, censored := false, dlIdx := 0, normRank := 1, avgRank := 1,
          plotPos := some (1/3), zprelim := some (1/3), modeled := none, final := 1 },
        { res := 5, censored := false, dlIdx := 1, normRank := 1, avgRank := 1,
          plotPos := some (5/6), zprelim := some (5/6), modeled := none, final := 5 }],
      fit := some (8, -5/3) } := by
  norm_num [runMR, nTotOf, nNdOf, dlsOf, presOf, peOf, zAtOf, fitOf, sortedOf,
    cohnDLs, rosSort, sortByRes, insertByRes, dPeOne, List.filter,
    pandasUnique, uniqAux, listMin, countA, countB, countC, countObs, ltUpper,
    dlIndex, dlIndexAux, rankAt, avgRankAt, detectGroupIdxs, peCompute,
    plotPosAt, linregress, mkOutRows, opsEx, List.range_succ]

/-- C8 counterexample: on dPeOne the synthetic lowest entry has B = 0 and
A = 1, so the recursion yields PE[0] = 1, which violates the claimed
half-open range [0, 1). -/
theorem C8_counterexample :
    ¬ (∀ x ∈ (runMR opsEx true dPeOne).pe, 0 ≤ x ∧ x < 1) := by
  intro h
  have h1 := h 1 (by rw [runMR_dPeOne]; norm_num)
  exact absurd h1.2 (lt_irrefl 1)

/-- C8 amended: for every run, every PE entry lies in the closed interval
[0, 1] (the right endpoint is attained, see the counterexample) and the
sentinel entry of a nonempty table is 0 (on an empty table the PE column
is empty and its default last value is 0 as well). -/
theorem C8_pe_bounds (ops : MathOps) (fitlogs : Bool) (data : List Obs) :
    (∀ x ∈ (runMR ops fitlogs data).pe, 0 ≤ x ∧ x ≤ 1)
    ∧ (runMR ops fitlogs data).pe.getLastD 0 = 0 := by
  by_cases h1 : nNdOf data = 0
  · rw [runMR_nocens ops fitlogs data h1]
    dsimp only
    exact ⟨fun x hx => absurd hx (List.not_mem_nil x), rfl⟩
  · by_cases h2 : nTotOf data - nNdOf data < 2
        ∨ (nNdOf data : ℚ) / (nTotOf data : ℚ) > 4 / 5
    · rw [runMR_fallback ops fitlogs data h1 h2]
      dsimp only
      constructor
      · intro x hx
        rw [List.eq_of_mem_replicate hx]
        norm_num
      · exact getLastD_replicate_zero _
    · rw [runMR_regression ops fitlogs data h1 h2]
      dsimp only
      constructor
      · intro x hx
        refine peCompute_bounds _ ?_ x hx
        intro r hrm
        rcases List.mem_map.mp hrm with ⟨e, _, rfl⟩
        rcases Nat.eq_zero_or_pos (e.A + e.B) with hz | hp
        · have hA : e.A = 0 := by omega
          rw [hA]
          norm_num
        · have hden : (0:ℚ) < (e.A : ℚ) + (e.B : ℚ) := by exact_mod_cast hp
          constructor
          · positivity
          · rw [div_le_one hden]
            exact le_add_of_nonneg_right (by positivity)
      · rw [peOf, getLastD_zero_eq_getD, peCompute_length]
        have h := peCompute_getD_length
          ((dlsOf data).map (fun e => (e.A : ℚ) / ((e.A : ℚ) + (e.B : ℚ))))
        simpa using h

/-- C8 witness: the bounds instantiated on the tied example at the first
PE entry, together with the sentinel fact. -/
theorem C8_witness :
    (0 ≤ (runMR opsEx true dTies).pe.getD 0 0 ∧ (runMR opsEx true dTies).pe.getD 0 0 ≤ 1)
    ∧ (runMR opsEx true dTies).pe.getLastD 0 = 0 :=
  ⟨(C8_pe_bounds opsEx true dTies).1 ((runMR opsEx true dTies).pe.getD 0 0)
      (by rw [runMR_dTies]; norm_num),
    (C8_pe_bounds opsEx true dTies).2⟩

/-! Plotting positions: C3. -/

/-- C3 counterexample: on the tied example, row 2 is a detect whose raw
rank is 2 but whose averaged rank is 3/2; the code computes its plotting
position from the raw rank (5/8), not from the averaged rank (17/32), so
the claimed formula with the averaged rank fails. -/
theorem C3_counterexample :
    ((runMR opsEx true dTies).rows.getD 2 default).plotPos
      ≠ some ((1 - (runMR opsEx true dTies).pe.getD
            ((runMR opsEx true dTies).rows.getD 2 default).dlIdx 0)
          + ((runMR opsEx true dTies).pe.getD
                ((runMR opsEx true dTies).rows.getD 2 default).dlIdx 0
              - (runMR opsEx true dTies).pe.getD
                (((runMR opsEx true dTies).rows.getD 2 default).dlIdx + 1) 0)
            * ((runMR opsEx true dTies).rows.getD 2 default).avgRank
            / ((((runMR opsEx true dTies).dls.getD
                  ((runMR opsEx true dTies).rows.getD 2 default).dlIdx default).A : ℚ) + 1)) := by
  rw [runMR_dTies]
  norm_num [Option.some.injEq]

/-- C3 amended: on the regression path every row's plotting position is
computed from its governing entry i = DLIndex and successor i+1 as
(1 - PE[i]) rank / (C[i]+1) for censored rows and
(1 - PE[i]) + (PE[i] - PE[i+1]) rank / (A[i]+1) for detected rows, where
rank is the row's RAW rank (Norm Ranks) in both cases — the averaged rank
is computed by the rank stage but not used here. -/
theorem C3_plotting_position_raw_rank (ops : MathOps) (fitlogs : Bool) (data : List Obs)
    (h1 : nNdOf data ≠ 0)
    (h2 : ¬(nTotOf data - nNdOf data < 2 ∨ (nNdOf data : ℚ) / (nTotOf data : ℚ) > 4 / 5)) :
    ∀ n, n < (runMR ops fitlogs data).rows.length →
      ((runMR ops fitlogs data).rows.getD n default).plotPos
        = some (
            if ((runMR ops fitlogs data).rows.getD n default).censored = true
            then (1 - (runMR ops fitlogs data).pe.getD
                    ((runMR ops fitlogs data).rows.getD n default).dlIdx 0)
                * (((runMR ops fitlogs data).rows.getD n default).normRank : ℚ)
                / ((((runMR ops fitlogs data).dls.getD
                      ((runMR ops fitlogs data).rows.getD n default).dlIdx default).C : ℚ) + 1)
            else (1 - (runMR ops fitlogs data).pe.getD
                    ((runMR ops fitlogs data).rows.getD n default).dlIdx 0)
              + ((runMR ops fitlogs data).pe.getD
                    ((runMR ops fitlogs data).rows.getD n default).dlIdx 0
                  - (runMR ops fitlogs data).pe.getD
                    (((runMR ops fitlogs data).rows.getD n default).dlIdx + 1) 0)
                * (((runMR ops fitlogs data).rows.getD n default).normRank : ℚ)
                / ((((runMR ops fitlogs data).dls.getD
                      ((runMR ops fitlogs data).rows.getD n default).dlIdx default).A : ℚ) + 1)) := by
  rw [runMR_regression ops fitlogs data h1 h2]
  dsimp only
  intro n hn
  rw [mkOutRows_length] at hn
  rw [mkOutRows_getD _ _ _ _ _ hn]
  unfold plotPosAt
  rfl

/-- C3 witness: the raw-rank formula instantiated at row 2 of the tied
example. -/
theorem C3_witness :
    ((runMR opsEx true dTies).rows.getD 2 default).plotPos
      = some (
          if ((runMR opsEx true dTies).rows.getD 2 default).censored = true
          then (1 - (runMR opsEx true dTies).pe.getD
                  ((runMR opsEx true dTies).rows.getD 2 default).dlIdx 0)
              * (((runMR opsEx true dTies).rows.getD 2 default).normRank : ℚ)
              / ((((runMR opsEx true dTies).dls.getD
                    ((runMR opsEx true dTies).rows.getD 2 default).dlIdx default).C : ℚ) + 1)
          else (1 - (runMR opsEx true dTies).pe.getD
                  ((runMR opsEx true dTies).rows.getD 2 default).dlIdx 0)
            + ((runMR opsEx true dTies).pe.getD
                  ((runMR opsEx true dTies).rows.getD 2 default).dlIdx 0
                - (runMR opsEx true dTies).pe.getD
                  (((runMR opsEx true dTies).rows.getD 2 default).dlIdx + 1) 0)
              * (((runMR opsEx true dTies).rows.getD 2 default).normRank : ℚ)
              / ((((runMR opsEx true dTies).dls.getD
                    ((runMR opsEx true dTies).rows.getD 2 default).dlIdx default).A : ℚ) + 1)) :=
  C3_plotting_position_raw_rank opsEx true dTies
    (by norm_num [nNdOf, countObs, dTies])
    (by norm_num [nTotOf, nNdOf, countObs, dTies])
    2 (by rw [runMR_dTies]; norm_num)

/-! The two non-regression branches: C6, C7, C10. -/

/-- Evaluation of the pipeline on dFallback (one non-detect, one detect):
too few detects, so the half-detection-limit substitution is used and the
PE column keeps its initialization. -/
theorem runMR_dFallback : runMR opsEx true dFallback =
    { dls := [{ DL := 1, lower := 1, upper := none, A := 1, B := 1, C := 1 }],
      pe := [0, 0],
      rows := [
        { res := 1, censored := true, dlIdx := 0, normRank := 1, avgRank := 1,
          plotPos := none, zprelim := none, modeled := none, final := 1/2 },
        { res := 2, censored := false, dlIdx := 0, normRank := 1, avgRank := 1,
          plotPos := none, zprelim := none, modeled := none, final := 2 }],
      fit := none } := by
  norm_num [runMR, nTotOf, nNdOf, dlsOf, presOf, peOf, zAtOf, fitOf, sortedOf,
    cohnDLs, rosSort, sortByRes, insertByRes, dFallback, List.filter,
    pandasUnique, uniqAux, listMin, countA, countB, countC, countObs, ltUpper,
    dlIndex, dlIndexAux, rankAt, avgRankAt, detectGroupIdxs, peCompute,
    plotPosAt, linregress, mkOutRows, opsEx, List.range_succ, List.replicate]

/-- C6: with censored observations present and fewer than 2 detects or a
censored fraction above 0.8, the run substitutes exactly half the
reported value for every censored row, passes detects through, and
performs no regression fit. -/
theorem C6_half_dl_fallback (ops : MathOps) (fitlogs : Bool) (data : List Obs)
    (h1 : nNdOf data ≠ 0)
    (h2 : nTotOf data - nNdOf data < 2 ∨ (nNdOf data : ℚ) / (nTotOf data : ℚ) > 4 / 5) :
    (∀ r ∈ (runMR ops fitlogs data).rows,
        r.final = if r.censored = true then 1 / 2 * r.res else r.res)
    ∧ (runMR ops fitlogs data).fit = none := by
  rw [runMR_fallback ops fitlogs data h1 h2]
  dsimp only
  refine ⟨?_, rfl⟩
  intro r hr
  rcases mkOutRows_mem _ _ _ _ _ hr with ⟨n, hn, rfl⟩
  rfl

/-- C6 witness: on the fallback example the censored row's final value is
half its reported value and no fit is produced. -/
theorem C6_witness :
    ((runMR opsEx true dFallback).rows.getD 0 default).final
        = (if ((runMR opsEx true dFallback).rows.getD 0 default).censored = true
          then 1 / 2 * ((runMR opsEx true dFallback).rows.getD 0 default).res
          else ((runMR opsEx true dFallback).rows.getD 0 default).res)
      ∧ (runMR opsEx true dFallback).fit = none :=
  ⟨(C6_half_dl_fallback opsEx true dFallback
      (by norm_num [nNdOf, countObs, dFallback])
      (by norm_num [nTotOf, nNdOf, countObs, dFallback])).1
    ((runMR opsEx true dFallback).rows.getD 0 default)
    (by rw [runMR_dFallback]; norm_num),
   (C6_half_dl_fallback opsEx true dFallback
      (by norm_num [nNdOf, countObs, dFallback])
      (by norm_num [nTotOf, nNdOf, countObs, dFallback])).2⟩

/-- C10: on the fallback path the PE recursion and the plotting-position,
quantile-score and modeled-value computations never happen: every PE entry
(real rows and sentinel) stays at its initialization 0, no fit is stored,
and the plot_pos / Zprelim / modeled_data columns are absent from every
row — the rows gain only the final value beyond the index and rank
columns. -/
theorem C10_fallback_frame (ops : MathOps) (fitlogs : Bool) (data : List Obs)
    (h1 : nNdOf data ≠ 0)
    (h2 : nTotOf data - nNdOf data < 2 ∨ (nNdOf data : ℚ) / (nTotOf data : ℚ) > 4 / 5) :
    (runMR ops fitlogs data).pe
        = List.replicate ((runMR ops fitlogs data).dls.length + 1) 0
    ∧ (runMR ops fitlogs data).fit = none
    ∧ ∀ r ∈ (runMR ops fitlogs data).rows,
        r.plotPos = none ∧ r.zprelim = none ∧ r.modeled = none := by
  rw [runMR_fallback ops fitlogs data h1 h2]
  dsimp only
  refine ⟨rfl, rfl, ?_⟩
  intro r hr
  rcases mkOutRows_mem _ _ _ _ _ hr with ⟨n, hn, rfl⟩
  exact ⟨rfl, rfl, rfl⟩

/-- C10 witness: the frame facts instantiated on the fallback example. -/
theorem C10_witness :
    (runMR opsEx true dFallback).pe
        = List.replicate ((runMR opsEx true dFallback).dls.length + 1) 0
    ∧ (runMR opsEx true dFallback).fit = none
    ∧ (((runMR opsEx true dFallback).rows.getD 1 default).plotPos = none
      ∧ ((runMR opsEx true dFallback).rows.getD 1 default).zprelim = none
      ∧ ((runMR opsEx true dFallback).rows.getD 1 default).modeled = none) := by
  have h := C10_fallback_frame opsEx true dFallback
    (by norm_num [nNdOf, countObs, dFallback])
    (by norm_num [nTotOf, nNdOf, countObs, dFallback])
  exact ⟨h.1, h.2.1, h.2.2 _ (by rw [runMR_dFallback]; norm_num)⟩

theorem filter_censored_eq_nil {l : List Obs}
    (h : countObs (fun o => o.censored = true) l = 0) :
    l.filter (fun o => o.censored) = [] := by
  induction l with
  | nil => rfl
  | cons o rest ih =>
    rw [countObs_cons] at h
    rw [List.filter_cons]
    by_cases hc : o.censored = true
    · rw [if_pos hc] at h
      exact absurd h (by omega)
    · rw [if_neg hc] at h
      have hb : o.censored = false := by
        cases hcc : o.censored
        · rfl
        · exact absurd hcc hc
      rw [hb]
      simpa using ih (by omega)

theorem cohnDLs_eq_nil {l : List Obs} (h : l.filter (fun o => o.censored) = []) :
    cohnDLs l = [] := by
  unfold cohnDLs
  rw [h]
  rfl

/-- Evaluation of the pipeline on dNoCens (three detects, zero censored
rows): empty table, pass-through, but the rank columns are computed. -/
theorem runMR_dNoCens : runMR opsEx true dNoCens =
    { dls := [], pe := [],
      rows := [
        { res := 1, censored := false, dlIdx := 0, normRank := 1, avgRank := 1,
          plotPos := none, zprelim := none, modeled := none, final := 1 },
        { res := 2, censored := false, dlIdx := 0, normRank := 2, avgRank := 2,
          plotPos := none, zprelim := none, modeled := none, final := 2 },
        { res := 3, censored := false, dlIdx := 0, normRank := 3, avgRank := 3,
          plotPos := none, zprelim := none, modeled := none, final := 3 }],
      fit := none } := by
  norm_num [runMR, nTotOf, nNdOf, dlsOf, presOf, peOf, zAtOf, fitOf, sortedOf,
    cohnDLs, rosSort, sortByRes, insertByRes, dNoCens, List.filter,
    pandasUnique, uniqAux, listMin, countA, countB, countC, countObs, ltUpper,
    dlIndex, dlIndexAux, rankAt, avgRankAt, detectGroupIdxs, peCompute,
    plotPosAt, linregress, mkOutRows, opsEx, List.range_succ]

/-- C7 counterexample: on a censoring-free input the rank machinery still
runs.  The Norm Ranks column is created initialized to N_tot (ros.py line
297) and only the rank stage overwrites it, so a run that skipped the rank
machinery would leave every raw rank at N_tot = 3; the actual run produces
the computed ranks 1, 2, 3, refuting the claim that no rank machinery is
invoked. -/
theorem C7_counterexample :
    (runMR opsEx true dNoCens).rows.map (fun r => r.normRank) = [1, 2, 3]
    ∧ (runMR opsEx true dNoCens).rows.map (fun r => r.normRank)
        ≠ List.replicate (nTotOf dNoCens) (nTotOf dNoCens) := by
  rw [runMR_dNoCens]
  constructor
  · norm_num
  · norm_num [nTotOf, dNoCens, List.replicate]

/-- C7 amended: with zero censored observations the detection-limit table
is empty (and so is its PE column), no fit is performed, the probability
and plotting machinery is skipped (those columns are absent), and every
final value equals the input value exactly; the rank columns, however, are
still computed. -/
theorem C7_no_censored_passthrough (ops : MathOps) (fitlogs : Bool) (data : List Obs)
    (h1 : nNdOf data = 0) :
    (runMR ops fitlogs data).dls = [] ∧ (runMR ops fitlogs data).pe = []
    ∧ (runMR ops fitlogs data).fit = none
    ∧ ∀ r ∈ (runMR ops fitlogs data).rows,
        r.final = r.res ∧ r.plotPos = none ∧ r.zprelim = none ∧ r.modeled = none := by
  rw [runMR_nocens ops fitlogs data h1]
  dsimp only
  refine ⟨?_, rfl, rfl, ?_⟩
  · unfold dlsOf
    refine cohnDLs_eq_nil (filter_censored_eq_nil ?_)
    rw [countObs_rosSort]
    exact h1
  · intro r hr
    rcases mkOutRows_mem _ _ _ _ _ hr with ⟨n, hn, rfl⟩
    exact ⟨rfl, rfl, rfl, rfl⟩

/-- C7 witness: pass-through facts instantiated on the censoring-free
example. -/
theorem C7_witness :
    (runMR opsEx true dNoCens).dls = [] ∧ (runMR opsEx true dNoCens).pe = []
    ∧ (runMR opsEx true dNoCens).fit = none
    ∧ (((runMR opsEx true dNoCens).rows.getD 0 default).final
          = ((runMR opsEx true dNoCens).rows.getD 0 default).res
      ∧ ((runMR opsEx true dNoCens).rows.getD 0 default).plotPos = none
      ∧ ((runMR opsEx true dNoCens).rows.getD 0 default).zprelim = none
      ∧ ((runMR opsEx true dNoCens).rows.getD 0 default).modeled = none) := by
  have h := C7_no_censored_passthrough opsEx true dNoCens
    (by norm_num [nNdOf, countObs, dNoCens])
  exact ⟨h.1, h.2.1, h.2.2.1, h.2.2.2 _ (by rw [runMR_dNoCens]; norm_num)⟩

/-! The regression imputation with log fitting off: C5. -/

/-- Evaluation of the pipeline on dLinFit with fitlogs off under opsShift
(exp modelled as x + 7): the fit over the detected raw values is slope 9,
intercept -3; the censored row's slope z + intercept is -3/2, and the
code exponentiates it anyway, yielding -3/2 + 7 = 11/2. -/
theorem runMR_dLinFit : runMR opsShift false dLinFit =
    { dls := [{ DL := 1, lower := 1, upper := none, A := 2, B := 1, C := 1 }],
      pe := [2/3, 0],
      rows := [
        { res := 1, censored := true, dlIdx := 0, normRank := 1, avgRank := 1,
          plotPos := some (1/6), zprelim := some (1/6), modeled := some (11/2),
          final := 11/2 },
        { res := 2, censored := false, dlIdx := 0, normRank := 1, avgRank := 1,
          plotPos := some (5/9), zprelim := some (5/9), modeled := none, final := 2 },
        { res := 4, censored := false, dlIdx := 0, normRank := 2, avgRank := 2,
          plotPos := some (7/9), zprelim := some (7/9), modeled := none, final := 4 }],
      fit := some (9, -3) } := by
  norm_num [runMR, nTotOf, nNdOf, dlsOf, presOf, peOf, zAtOf, fitOf, sortedOf,
    cohnDLs, rosSort, sortByRes, insertByRes, dLinFit, List.filter,
    pandasUnique, uniqAux, listMin, countA, countB, countC, countObs, ltUpper,
    dlIndex, dlIndexAux, rankAt, avgRankAt, detectGroupIdxs, peCompute,
    plotPosAt, linregress, mkOutRows, opsShift, List.range_succ]

/-- C5 at the failing input: with log-space fitting off the OLS fit over
the detected raw values gives (slope, intercept) = (9, -3) and the
censored row's slope z + intercept equals -3/2, yet its final value is
the exponential image expf(-3/2) = 11/2 (np.exp applied unconditionally
at ros.py line 409), not the identity image -3/2 the claim requires when
log-space fitting is inactive. -/
theorem C5_code_eval :
    (runMR opsShift false dLinFit).fit = some (9, -3)
    ∧ ((runMR opsShift false dLinFit).rows.getD 0 default).censored = true
    ∧ ((runMR opsShift false dLinFit).rows.getD 0 default).final
        = opsShift.expf (-(3:ℚ)/2)
    ∧ opsShift.expf (-(3:ℚ)/2) ≠ -(3:ℚ)/2 := by
  rw [runMR_dLinFit]
  norm_num [opsShift]
